import Mathlib

/-!
Verification of the block/clip pairing and filtering pipeline of
`src/textp2srt.py` (Resolve_Text2SRT).

The Python source is shallowly embedded as executable Lean definitions:

* Python `str` values are Lean `String`s, manipulated through their
  underlying `List Char` (`String.data`); `str.strip`, `str.lstrip`,
  `str.lower` and the substring test `in` are modelled by `pyStrip`,
  `pyLStrip`, `pyLower` and `pyContains` (ASCII lowercasing, as in the
  source all built-in patterns are either katakana — unaffected by
  lowercasing — or ASCII).
* Python `float` arithmetic is modelled by exact rational arithmetic on
  `ℚ`.  The one place where float-specific behaviour is semantically
  documented and relevant is `datetime.timedelta(seconds=x)`, which per
  the Python documentation rounds its argument to a whole number of
  microseconds using round-half-to-even; this is modelled exactly by
  `roundHalfEven`.  `int(x)` truncation toward zero is `pyInt`.
* The external DaVinci Resolve timeline API is modelled as data
  (`Timeline`, `Track`, `RawItem`): each raw timeline item carries the
  results the API calls would deliver (name lookup, Fusion-composition
  presence, retrieved StyledText), with `Option` capturing the
  `try/except → absent` handling in the source.
* Functions that print warnings and write files are modelled as pure
  functions returning the written entries together with the list of
  warning lines they print.
-/

/-- Python whitespace characters recognised by `str.strip` / `str.lstrip`
(ASCII range: space, tab, newline, carriage return, vertical tab, form feed). -/
def isPySpace (c : Char) : Bool :=
  c == ' ' || c == '\t' || c == '\n' || c == '\r' || c == '\x0b' || c == '\x0c'

/-- Python `str.strip()`: remove leading and trailing whitespace. -/
def pyStrip (s : String) : String :=
  ⟨(s.data.dropWhile isPySpace).rdropWhile isPySpace⟩

/-- Python `str.lstrip()`: remove leading whitespace. -/
def pyLStrip (s : String) : String :=
  ⟨s.data.dropWhile isPySpace⟩

/-- Python `str.lower()` (ASCII letters; the source's patterns are katakana or ASCII). -/
def pyLower (s : String) : String :=
  ⟨s.data.map Char.toLower⟩

/-- Python `pat in hay` substring containment on char lists. -/
def pyContains (hay pat : List Char) : Bool :=
  match hay with
  | [] => pat.isEmpty
  | _ :: t => pat.isPrefixOf hay || pyContains t pat

/-- Python `line.startswith('>')` (textp2srt.py line 66). -/
def startsWithGt (s : String) : Bool :=
  match s.data with
  | [] => false
  | c :: _ => c == '>'

/-- Python `line[1:]`. -/
def strTail (s : String) : String := ⟨s.data.tail⟩

/-- The accumulation loop of `parse_manual` (textp2srt.py lines 62-80):
`blocks` and `cur` are the accumulators; a line starting with `'>'` flushes
`cur` (joined with newlines and stripped) into `blocks` and starts a new
current block from the rest of the line left-stripped; other lines are
appended to the current block when one is open and ignored otherwise; at
end of input an open block is flushed. -/
def parseManualLoop : List String → List String → List String → List String
  | [], blocks, cur =>
      if cur.isEmpty then blocks
      else blocks ++ [pyStrip (String.intercalate "\n" cur)]
  | line :: rest, blocks, cur =>
      if startsWithGt line then
        parseManualLoop rest
          (if cur.isEmpty then blocks
           else blocks ++ [pyStrip (String.intercalate "\n" cur)])
          [pyLStrip (strTail line)]
      else
        if cur.isEmpty then parseManualLoop rest blocks cur
        else parseManualLoop rest blocks (cur ++ [line])

/-- `parse_manual` on the lines of the file (each line without its trailing
newline, matching `raw.rstrip('\n')` under text-mode iteration), including the
final `[b for b in blocks if b]` dropping of empty blocks (line 82). -/
def parseManualLines (lines : List String) : List String :=
  (parseManualLoop lines [] []).filter (fun b => b != "")

/-- The only I/O failure `parse_manual` can propagate: `open` on a
nonexistent path. -/
inductive FsError where
  | fileNotFound
deriving DecidableEq

/-- `parse_manual(path)` (textp2srt.py lines 58-82).  The filesystem is an
explicit parameter mapping a path to the lines of the file when it exists.
An empty (falsy) path returns `[]` before any I/O (lines 60-61); a
nonexistent file makes `open` raise, surfaced unmodified. -/
def parse_manual (path : String) (fs : String → Option (List String)) :
    Except FsError (List String) :=
  if path = "" then .ok []
  else
    match fs path with
    | none => .error .fileNotFound
    | some lines => .ok (parseManualLines lines)

/-- Round-half-to-even of a rational to an integer: the rounding
`datetime.timedelta` applies to fractional microseconds. -/
def roundHalfEven (x : ℚ) : ℤ :=
  let f := ⌊x⌋
  if x - f < 1/2 then f
  else if 1/2 < x - f then f + 1
  else if f % 2 = 0 then f else f + 1

/-- Python `int(x)` for a rational `x`: truncation toward zero. -/
def pyInt (x : ℚ) : ℤ :=
  if 0 ≤ x then ⌊x⌋ else ⌈x⌉

/-- Zero padding of a natural to width `w`, as in `f"{n:02d}"` / `f"{n:03d}"`
(the field grows beyond `w` digits when needed, never truncates). -/
def padZero (w n : ℕ) : String :=
  ⟨List.replicate (w - (Nat.repr n).length) '0' ++ (Nat.repr n).data⟩

/-- Zero padding of an integer to width `w` (Python counts the sign toward
the field width and pads between sign and digits). -/
def padInt (w : ℕ) (n : ℤ) : String :=
  if n < 0 then "-" ++ padZero (w - 1) n.natAbs else padZero w n.toNat

/-- The total-millisecond computation of `_fmt_time` (textp2srt.py lines
191-192): `timedelta(seconds=sec)` holds `roundHalfEven (sec * 10^6)`
microseconds, `total_seconds()` is that over `10^6`, and
`int(· * 1000)` truncates toward zero. -/
def fmtTotalMs (sec : ℚ) : ℤ :=
  pyInt ((roundHalfEven (sec * 1000000) : ℚ) / 1000000 * 1000)

/-- `_fmt_time(sec)` (textp2srt.py lines 190-197): decompose total
milliseconds with floor division and nonnegative modulo (Python `//`, `%`)
and render `HH:MM:SS,mmm`. -/
def _fmt_time (sec : ℚ) : String :=
  let total_ms := fmtTotalMs sec
  let h := total_ms.fdiv 3600000
  let m := (total_ms.fdiv 60000).fmod 60
  let s := (total_ms.fdiv 1000).fmod 60
  let ms := total_ms.fmod 1000
  padInt 2 h ++ ":" ++ padInt 2 m ++ ":" ++ padInt 2 s ++ "," ++ padInt 3 ms

/-- The time-format contract as the specification words it (§4.1): total
milliseconds as `floor(seconds * 1000)`, then hours / minutes / seconds /
milliseconds by successive integer division and modulo, zero-padded to
2/2/2/3 digits.  Stated for comparison with `_fmt_time`. -/
def fmt_time_spec (sec : ℚ) : String :=
  let total_ms := (⌊sec * 1000⌋).toNat
  let h := total_ms / 3600000
  let r := total_ms % 3600000
  let m := r / 60000
  let r2 := r % 60000
  let s := r2 / 1000
  let ms := r2 % 1000
  padZero 2 h ++ ":" ++ padZero 2 m ++ ":" ++ padZero 2 s ++ "," ++ padZero 3 ms

/-- `DEFAULT_IGNORE_NAMES` (textp2srt.py lines 199-202). -/
def DEFAULT_IGNORE_NAMES : List String :=
  ["カラーディップ", "クロスディゾルブ", "ディゾルブ", "ディップ",
   "Transition", "Dip", "Dissolve", "Cross Dissolve"]

/-- `_should_ignore(name, duration, ignore_effects, extra)` (textp2srt.py
lines 204-217): with the heuristic disabled return False immediately;
otherwise ignore on a case-insensitive substring match against the built-in
plus extra patterns (skipping empty patterns, Python `if p and p in lname`),
else ignore when the duration is at most 0.6 seconds and the lowercased name
has fewer than 6 distinct characters. -/
def _should_ignore (name : String) (duration : ℚ) (ignore_effects : Bool)
    (extra : List String) : Bool :=
  if !ignore_effects then false
  else
    let lname := pyLower name
    let patterns := DEFAULT_IGNORE_NAMES.map pyLower ++ extra.map pyLower
    if patterns.any (fun p => !p.data.isEmpty && pyContains lname.data p.data) then true
    else if duration ≤ 6/10 then
      if lname.data.dedup.length < 6 then true else false
    else false

/-- One item of a video track, as delivered by the external timeline API
(`GetItemListInTrack`): start and end in frames, the result of the guarded
`GetName()` call (`none` for an exception or a `None` return, both mapped to
`''` by the source), whether `GetFusionCompByIndex(1)` yields a composition,
and the StyledText the retrieval dance of lines 137-154 would produce for
that composition. -/
structure RawItem where
  startFrame : ℚ
  endFrame : ℚ
  nameResult : Option String
  hasFusion : Bool
  styledText : Option String
deriving DecidableEq

/-- A named video track. -/
structure Track where
  name : String
  items : List RawItem
deriving DecidableEq

/-- The current timeline: its video tracks in index order and the setting
`timelineFrameRate`. -/
structure Timeline where
  tracks : List Track
  fps : ℚ

/-- One kept clip of `collect_clips` (the dict of textp2srt.py line 251,
with `item` the underlying timeline item). -/
structure ClipInfo where
  item : RawItem
  start : ℚ
  «end» : ℚ
  name : String

/-- Exclusion reasons of `collect_clips_with_ignored` (`'text_plus'` /
`'effect'`). -/
inductive IgnoreReason where
  | text_plus
  | effect
deriving DecidableEq

/-- One ignored clip of `collect_clips_with_ignored` (lines 283, 293). -/
structure IgnoredInfo where
  item : RawItem
  reason : IgnoreReason
  name : String
  start : ℚ
  «end» : ℚ
  dur : ℚ

/-- The raw item sequence a track-level loop of the source visits for a
given track name: the items of every track whose name matches, in track
index order (the source's `for i in range(1, tcount+1)` with
`if name != track_name: continue`). -/
def rawItemsOfTracks (track_name : String) : List Track → List RawItem
  | [] => []
  | t :: rest =>
      (if t.name = track_name then t.items else []) ++ rawItemsOfTracks track_name rest

/-- The inner item loop of `collect_clips` (textp2srt.py lines 232-251). -/
def collectClipsItems (fps : ℚ) (exclude_text_plus ignore_effects : Bool)
    (extra_ignore : List String) : List RawItem → List ClipInfo
  | [] => []
  | it :: rest =>
      if exclude_text_plus && it.hasFusion then
        collectClipsItems fps exclude_text_plus ignore_effects extra_ignore rest
      else
        let clip_name := it.nameResult.getD ""
        let start := it.startFrame / fps
        let e := it.endFrame / fps
        let dur := e - start
        if _should_ignore clip_name dur ignore_effects extra_ignore then
          collectClipsItems fps exclude_text_plus ignore_effects extra_ignore rest
        else
          ⟨it, start, e, clip_name⟩ ::
            collectClipsItems fps exclude_text_plus ignore_effects extra_ignore rest

/-- The track loop of `collect_clips` (lines 226-251). -/
def collectClipsTracks (fps : ℚ) (track_name : String)
    (exclude_text_plus ignore_effects : Bool) (extra_ignore : List String) :
    List Track → List ClipInfo
  | [] => []
  | t :: rest =>
      (if t.name = track_name then
        collectClipsItems fps exclude_text_plus ignore_effects extra_ignore t.items
       else []) ++
      collectClipsTracks fps track_name exclude_text_plus ignore_effects extra_ignore rest

/-- `collect_clips(track_name, exclude_text_plus, ignore_effects, extra_ignore)`
(textp2srt.py lines 219-252); `none` models the absence of an active
timeline (line 221). -/
def collect_clips (tl : Option Timeline) (track_name : String)
    (exclude_text_plus ignore_effects : Bool) (extra_ignore : List String) :
    List ClipInfo :=
  match tl with
  | none => []
  | some tl =>
      collectClipsTracks tl.fps track_name exclude_text_plus ignore_effects
        extra_ignore tl.tracks

/-- The inner item loop of `collect_clips_with_ignored` (lines 268-295),
returning the kept and ignored lists. -/
def collectWithIgnoredItems (fps : ℚ) (exclude_text_plus ignore_effects : Bool)
    (extra_ignore : List String) : List RawItem → List ClipInfo × List IgnoredInfo
  | [] => ([], [])
  | it :: rest =>
      let r := collectWithIgnoredItems fps exclude_text_plus ignore_effects extra_ignore rest
      let nm := it.nameResult.getD ""
      let start := it.startFrame / fps
      let e := it.endFrame / fps
      let dur := e - start
      if exclude_text_plus && it.hasFusion then
        (r.1, ⟨it, .text_plus, nm, start, e, dur⟩ :: r.2)
      else if _should_ignore nm dur ignore_effects extra_ignore then
        (r.1, ⟨it, .effect, nm, start, e, dur⟩ :: r.2)
      else
        (⟨it, start, e, nm⟩ :: r.1, r.2)

/-- The track loop of `collect_clips_with_ignored` (lines 262-295). -/
def collectWithIgnoredTracks (fps : ℚ) (track_name : String)
    (exclude_text_plus ignore_effects : Bool) (extra_ignore : List String) :
    List Track → List ClipInfo × List IgnoredInfo
  | [] => ([], [])
  | t :: rest =>
      let here :=
        if t.name = track_name then
          collectWithIgnoredItems fps exclude_text_plus ignore_effects extra_ignore t.items
        else ([], [])
      let r := collectWithIgnoredTracks fps track_name exclude_text_plus ignore_effects
        extra_ignore rest
      (here.1 ++ r.1, here.2 ++ r.2)

/-- `collect_clips_with_ignored(...)` (textp2srt.py lines 254-296). -/
def collect_clips_with_ignored (tl : Option Timeline) (track_name : String)
    (exclude_text_plus ignore_effects : Bool) (extra_ignore : List String) :
    List ClipInfo × List IgnoredInfo :=
  match tl with
  | none => ([], [])
  | some tl =>
      collectWithIgnoredTracks tl.fps track_name exclude_text_plus ignore_effects
        extra_ignore tl.tracks

/-- The result of a subtitle-writing command: the `(start, end, text)`
entries written to the SRT file, in order, and the warning lines printed. -/
structure SrtResult where
  entries : List (ℚ × ℚ × String)
  warnings : List String

/-- `write_srt(blocks, clips, out_path)` (textp2srt.py lines 84-95): pair
`blocks[i]` with `clips[i]` for `i < min(len(blocks), len(clips))` —
rendered here with `zipWith`, whose result is exactly that indexed loop —
and warn with both counts when the lengths differ. -/
def write_srt (blocks : List String) (clips : List ClipInfo) : SrtResult :=
  let count := min blocks.length clips.length
  { entries := List.zipWith (fun b c => (c.start, c.«end», b)) blocks clips
    warnings :=
      if blocks.length ≠ clips.length then
        ["[warn] blocks=" ++ toString blocks.length ++ " clips=" ++
          toString clips.length ++ " -> truncating to " ++ toString count]
      else [] }

/-- Clip kinds of the mixed mode (`'text_plus'` for a Fusion composition,
`'text'` otherwise; textp2srt.py line 132). -/
inductive Kind where
  | text
  | text_plus
deriving DecidableEq

/-- One gathered item of `write_srt_mixed` (the dict of line 155). -/
structure MixedItem where
  start : ℚ
  «end» : ℚ
  kind : Kind
  api_text : Option String
  name : String

/-- Python truthiness of `it['api_text']`: `None` and `''` are falsy. -/
def pyTruthy : Option String → Bool
  | none => false
  | some s => s != ""

/-- One iteration of the pairing loop of `write_srt_mixed` (lines 160-177):
returns the entry text and the updated `manual_idx` and `used_manual`. -/
def mixedStep (manual_blocks : List String) (manual_idx used_manual : ℕ)
    (it : MixedItem) : String × ℕ × ℕ :=
  if it.kind = Kind.text_plus ∧ pyTruthy it.api_text = true then
    (pyStrip (it.api_text.getD ""), manual_idx, used_manual)
  else if it.kind = Kind.text_plus ∧ pyTruthy it.api_text = false then
    if h : manual_idx < manual_blocks.length then
      (pyStrip (manual_blocks.get ⟨manual_idx, h⟩), manual_idx + 1, used_manual + 1)
    else ("", manual_idx, used_manual)
  else
    if h : manual_idx < manual_blocks.length then
      (pyStrip (manual_blocks.get ⟨manual_idx, h⟩), manual_idx + 1, used_manual + 1)
    else ("", manual_idx, used_manual)

/-- The pairing loop of `write_srt_mixed` over the time-sorted items
(lines 157-178), threading `manual_idx` and `used_manual` left to right and
emitting one `(start, end, text)` entry per item. -/
def mixedLoop (manual_blocks : List String) :
    List MixedItem → ℕ → ℕ → List (ℚ × ℚ × String) × ℕ × ℕ
  | [], manual_idx, used_manual => ([], manual_idx, used_manual)
  | it :: rest, manual_idx, used_manual =>
      let s := mixedStep manual_blocks manual_idx used_manual it
      let r := mixedLoop manual_blocks rest s.2.1 s.2.2
      ((it.start, it.«end», s.1) :: r.1, r.2)

/-- Result of `write_srt_mixed`: entries and warnings as in `SrtResult`,
plus the final manual-block cursor and consumption count. -/
structure MixedResult where
  entries : List (ℚ × ℚ × String)
  manual_idx : ℕ
  used_manual : ℕ
  warnings : List String

/-- The pairing / warning / emission phase of `write_srt_mixed`
(textp2srt.py lines 156-188), taken over the gathered, time-sorted kept
items: a single manual cursor `manual_idx` runs across the whole pass;
afterwards leftover manual blocks and empty entries are each reported as a
warning. -/
def mixedPass (manual_blocks : List String) (items : List MixedItem) : MixedResult :=
  let r := mixedLoop manual_blocks items 0 0
  let entries := r.1
  let manual_idx := r.2.1
  let used_manual := r.2.2
  let missing_plain := (entries.filter (fun e => e.2.2 = "")).length
  { entries := entries
    manual_idx := manual_idx
    used_manual := used_manual
    warnings :=
      (if manual_idx < manual_blocks.length then
        ["[warn] unused manual blocks: " ++ toString (manual_blocks.length - manual_idx)]
       else []) ++
      (if 0 < missing_plain then
        ["[warn] empty subtitle entries: " ++ toString missing_plain]
       else []) }

/-- The item-gathering loop of `write_srt_mixed` for one matching track
(textp2srt.py lines 116-155): convert frames to seconds, drop items the
effect heuristic ignores, classify by Fusion-composition presence, drop
Text+ items when `include_text_plus` is false, and retrieve the StyledText
for Text+ items. -/
def gatherMixedItems (fps : ℚ) (include_text_plus ignore_effects : Bool)
    (extra_ignore : List String) : List RawItem → List MixedItem
  | [] => []
  | it :: rest =>
      let start := it.startFrame / fps
      let e := it.endFrame / fps
      let dur := e - start
      let nm := it.nameResult.getD ""
      if _should_ignore nm dur ignore_effects extra_ignore then
        gatherMixedItems fps include_text_plus ignore_effects extra_ignore rest
      else
        let kind := if it.hasFusion then Kind.text_plus else Kind.text
        if kind = Kind.text_plus ∧ include_text_plus = false then
          gatherMixedItems fps include_text_plus ignore_effects extra_ignore rest
        else
          let text_plus_value := if kind = Kind.text_plus then it.styledText else none
          ⟨start, e, kind, text_plus_value, nm⟩ ::
            gatherMixedItems fps include_text_plus ignore_effects extra_ignore rest

/-- The track loop of the gathering phase (lines 112-155). -/
def gatherMixedTracks (fps : ℚ) (track_name : String)
    (include_text_plus ignore_effects : Bool) (extra_ignore : List String) :
    List Track → List MixedItem
  | [] => []
  | t :: rest =>
      (if t.name = track_name then
        gatherMixedItems fps include_text_plus ignore_effects extra_ignore t.items
       else []) ++
      gatherMixedTracks fps track_name include_text_plus ignore_effects extra_ignore rest

/-- `write_srt_mixed(manual_blocks, track_name, out_path, include_text_plus,
ignore_effects, extra_ignore)` (textp2srt.py lines 97-188): gather the
items of the matching tracks, sort them by start time (`items.sort` is a
stable sort by key; any stable sort by key gives the same list), then run
the pairing pass. -/
def write_srt_mixed (tl : Option Timeline) (manual_blocks : List String)
    (track_name : String) (include_text_plus ignore_effects : Bool)
    (extra_ignore : List String) : MixedResult :=
  match tl with
  | none => ⟨[], 0, 0, ["[error] no timeline"]⟩
  | some tl =>
      let items :=
        (gatherMixedTracks tl.fps track_name include_text_plus ignore_effects
          extra_ignore tl.tracks).mergeSort
          (fun a b => decide (a.start ≤ b.start))
      mixedPass manual_blocks items

/-- Specification vocabulary: an item consumes a manual block exactly when
it is not a StyledText item with truthy retrieved text (the first branch of
the pairing loop). -/
def needsManual (it : MixedItem) : Bool :=
  !(decide (it.kind = Kind.text_plus) && pyTruthy it.api_text)

/-- Specification vocabulary: how many items of the list consume a manual
block when enough blocks remain. -/
def needyCount (items : List MixedItem) : ℕ :=
  (items.filter needsManual).length

/-- The raw item sequence visited for a track name (empty without a
timeline). -/
def rawItems (tl : Option Timeline) (track_name : String) : List RawItem :=
  match tl with
  | none => []
  | some tl => rawItemsOfTracks track_name tl.tracks

/-- A raw timeline item used by concrete examples. -/
def demoRaw : RawItem := ⟨0, 0, none, false, none⟩

/-- Five manual blocks, for the 5-blocks/3-clips mismatch example. -/
def demoBlocks5 : List String := ["b1", "b2", "b3", "b4", "b5"]

/-- Three kept clips at (0,2), (2,5), (5,5.5) seconds. -/
def demoClips3 : List ClipInfo :=
  [⟨demoRaw, 0, 2, "a"⟩, ⟨demoRaw, 2, 5, "b"⟩, ⟨demoRaw, 5, 11/2, "c"⟩]

/-- A tiny filesystem: exactly one file, `manual.txt`. -/
def demoFs : String → Option (List String) :=
  fun p => if p = "manual.txt" then some [">hi"] else none

/-- A StyledText item with nonempty retrieved text. -/
def demoStyledHasText : MixedItem := ⟨0, 1, Kind.text_plus, some "Hello", "tp1"⟩

/-- A plain Text item. -/
def demoPlain : MixedItem := ⟨1, 2, Kind.text, none, "t1"⟩

/-- A StyledText item with no retrieved text. -/
def demoStyledNoText : MixedItem := ⟨2, 3, Kind.text_plus, none, "tp2"⟩

/-- The `[Styled(has text), Plain, Styled(no text)]` sequence of the claim. -/
def demoMixedItems : List MixedItem := [demoStyledHasText, demoPlain, demoStyledNoText]

/-- A StyledText item whose retrieved text is a single space. -/
def demoWsItem : MixedItem := ⟨0, 1, Kind.text_plus, some " ", "ws"⟩

/-- Singleton item list for the whitespace-text example. -/
def demoWsItems : List MixedItem := [demoWsItem]

/-- The rendered string of `_fmt_time` as a function of the nonnegative
total-millisecond count. -/
def fmtNatString (n : ℕ) : String :=
  padZero 2 (n / 3600000) ++ ":" ++ padZero 2 (n / 60000 % 60) ++ ":" ++
  padZero 2 (n / 1000 % 60) ++ "," ++ padZero 3 (n % 1000)

theorem collectClipsItems_sublist (fps : ℚ) (ex ig : Bool) (extra : List String) :
    ∀ items : List RawItem,
      ((collectClipsItems fps ex ig extra items).map (fun c => c.item)).Sublist items
  | [] => by simp [collectClipsItems]
  | it :: rest => by
      have ih := collectClipsItems_sublist fps ex ig extra rest
      simp only [collectClipsItems]
      split
      · exact ih.cons it
      · split
        · exact ih.cons it
        · simp only [List.map_cons]
          exact List.cons_sublist_cons.mpr ih

theorem collectClipsTracks_sublist (fps : ℚ) (tn : String) (ex ig : Bool)
    (extra : List String) :
    ∀ tracks : List Track,
      ((collectClipsTracks fps tn ex ig extra tracks).map (fun c => c.item)).Sublist
        (rawItemsOfTracks tn tracks)
  | [] => by simp [collectClipsTracks, rawItemsOfTracks]
  | t :: rest => by
      have ih := collectClipsTracks_sublist fps tn ex ig extra rest
      simp only [collectClipsTracks, rawItemsOfTracks, List.map_append]
      split
      · exact (collectClipsItems_sublist fps ex ig extra t.items).append ih
      · simpa using ih

theorem collectWithIgnoredItems_sublist (fps : ℚ) (ex ig : Bool) (extra : List String) :
    ∀ items : List RawItem,
      (((collectWithIgnoredItems fps ex ig extra items).1).map (fun c => c.item)).Sublist items
  | [] => by simp [collectWithIgnoredItems]
  | it :: rest => by
      have ih := collectWithIgnoredItems_sublist fps ex ig extra rest
      simp only [collectWithIgnoredItems]
      split
      · exact ih.cons it
      · split
        · exact ih.cons it
        · simp only [List.map_cons]
          exact List.cons_sublist_cons.mpr ih

theorem collectWithIgnoredTracks_sublist (fps : ℚ) (tn : String) (ex ig : Bool)
    (extra : List String) :
    ∀ tracks : List Track,
      (((collectWithIgnoredTracks fps tn ex ig extra tracks).1).map (fun c => c.item)).Sublist
        (rawItemsOfTracks tn tracks)
  | [] => by simp [collectWithIgnoredTracks, rawItemsOfTracks]
  | t :: rest => by
      have ih := collectWithIgnoredTracks_sublist fps tn ex ig extra rest
      simp only [collectWithIgnoredTracks, rawItemsOfTracks, List.map_append]
      split
      · exact (collectWithIgnoredItems_sublist fps ex ig extra t.items).append ih
      · simpa using ih

/-- C8: the element filter is order-stable — for every timeline, track name
and flag combination, the kept list produced by `collect_clips` and by
`collect_clips_with_ignored` is a subsequence (`List.Sublist`) of the raw
item sequence, in its original relative order: filtering only removes
elements, never reorders them. -/
theorem collect_clips_order_stable (tl : Option Timeline) (track_name : String)
    (exclude_text_plus ignore_effects : Bool) (extra_ignore : List String) :
    (((collect_clips tl track_name exclude_text_plus ignore_effects extra_ignore).map
        (fun c => c.item)).Sublist (rawItems tl track_name))
    ∧ ((((collect_clips_with_ignored tl track_name exclude_text_plus ignore_effects
          extra_ignore).1).map (fun c => c.item)).Sublist (rawItems tl track_name)) := by
  cases tl with
  | none => simp [collect_clips, collect_clips_with_ignored, rawItems]
  | some t =>
      exact ⟨collectClipsTracks_sublist t.fps track_name exclude_text_plus ignore_effects
          extra_ignore t.tracks,
        collectWithIgnoredTracks_sublist t.fps track_name exclude_text_plus ignore_effects
          extra_ignore t.tracks⟩

/-- C1: in plain mode `write_srt` writes exactly
`min (len blocks) (len clips)` entries, entry `i` is positionally
`(clips[i].start, clips[i].end, blocks[i])`, and a length mismatch in either
direction produces (only) a warning carrying both counts; the function has
no failure path. -/
theorem write_srt_plain_pairing (blocks : List String) (clips : List ClipInfo) :
    (write_srt blocks clips).entries.length = min blocks.length clips.length
    ∧ (∀ (i : ℕ) (h1 : i < blocks.length) (h2 : i < clips.length),
        (write_srt blocks clips).entries[i]? =
          some ((clips.get ⟨i, h2⟩).start, (clips.get ⟨i, h2⟩).«end»,
            blocks.get ⟨i, h1⟩))
    ∧ (blocks.length ≠ clips.length →
        (write_srt blocks clips).warnings =
          ["[warn] blocks=" ++ toString blocks.length ++ " clips=" ++
            toString clips.length ++ " -> truncating to " ++
            toString (min blocks.length clips.length)])
    ∧ (blocks.length = clips.length → (write_srt blocks clips).warnings = []) := by
  refine ⟨?_, ?_, ?_, ?_⟩
  · simp [write_srt]
  · intro i h1 h2
    simp [write_srt, List.getElem?_zipWith, List.getElem?_eq_getElem h1,
      List.getElem?_eq_getElem h2]
  · intro h
    simp [write_srt, h]
  · intro h
    simp [write_srt, h]

/-- Witness for C1: 5 blocks and 3 clips give exactly 3 entries, the
warning carries both counts, and entry 1 pairs `clips[1]` with `blocks[1]`. -/
theorem write_srt_plain_pairing_witness :
    (write_srt demoBlocks5 demoClips3).entries.length = 3
    ∧ (write_srt demoBlocks5 demoClips3).warnings =
        ["[warn] blocks=5 clips=3 -> truncating to 3"]
    ∧ (write_srt demoBlocks5 demoClips3).entries[1]? = some (2, 5, "b2") := by
  obtain ⟨hlen, hidx, hwarn, -⟩ := write_srt_plain_pairing demoBlocks5 demoClips3
  refine ⟨hlen.trans (by decide), (hwarn (by decide)).trans ?_, ?_⟩
  · decide
  · exact (hidx 1 (by decide) (by decide)).trans rfl

/-- C5: `parse_manual` has exactly one failure mode — a file-not-found
failure, which happens precisely when a nonempty path names no file — and
an empty (missing) source path yields the empty block sequence rather than
an error. -/
theorem parse_manual_failure_modes (path : String)
    (fs : String → Option (List String)) :
    (path = "" → parse_manual path fs = Except.ok [])
    ∧ (parse_manual path fs = Except.error FsError.fileNotFound ↔
        path ≠ "" ∧ fs path = none)
    ∧ (∀ e, parse_manual path fs = Except.error e → e = FsError.fileNotFound) := by
  refine ⟨?_, ?_, ?_⟩
  · intro h
    simp [parse_manual, h]
  · by_cases h : path = ""
    · simp [parse_manual, h]
    · cases hfs : fs path <;> simp [parse_manual, h, hfs]
  · intro e he
    cases e
    rfl

/-- Witness for C5: the empty path yields `ok []`, and a nonexistent file
is exactly a file-not-found error. -/
theorem parse_manual_failure_modes_witness :
    parse_manual "" demoFs = Except.ok []
    ∧ parse_manual "missing.txt" demoFs = Except.error FsError.fileNotFound := by
  refine ⟨(parse_manual_failure_modes "" demoFs).1 rfl, ?_⟩
  exact ((parse_manual_failure_modes "missing.txt" demoFs).2.1).mpr
    ⟨by decide, by decide⟩

theorem pyContains_iff_substr (hay pat : List Char) :
    pyContains hay pat = true ↔ pat <:+: hay := by
  induction hay with
  | nil =>
      simp [pyContains, List.isEmpty_iff]
  | cons c t ih =>
      simp only [pyContains, Bool.or_eq_true, List.isPrefixOf_iff_prefix, ih]
      constructor
      · rintro (h | h)
        · exact h.isInfix
        · exact List.infix_cons h
      · intro h
        rcases List.infix_cons_iff.mp h with h | h
        · exact Or.inl h
        · exact Or.inr h

/-- C6: with the heuristic enabled, any element whose lowercased name
contains the lowercased form of a (nonempty) built-in or caller-supplied
pattern as a substring is ignored, whatever its duration; with the
heuristic disabled, `_should_ignore` returns `false` for every element. -/
theorem should_ignore_patterns_and_disable :
    (∀ (name : String) (dur : ℚ) (extra : List String) (p : String),
        p ∈ DEFAULT_IGNORE_NAMES ++ extra →
        (pyLower p).data ≠ [] →
        (pyLower p).data <:+: (pyLower name).data →
        _should_ignore name dur true extra = true)
    ∧ (∀ (name : String) (dur : ℚ) (extra : List String),
        _should_ignore name dur false extra = false) := by
  constructor
  · intro name dur extra p hp hne hinf
    have hmem : pyLower p ∈ DEFAULT_IGNORE_NAMES.map pyLower ++ extra.map pyLower := by
      rw [← List.map_append]
      exact List.mem_map_of_mem pyLower hp
    have hany : (DEFAULT_IGNORE_NAMES.map pyLower ++ extra.map pyLower).any
        (fun q => !q.data.isEmpty && pyContains (pyLower name).data q.data) = true := by
      rw [List.any_eq_true]
      refine ⟨pyLower p, hmem, ?_⟩
      rw [Bool.and_eq_true]
      constructor
      · simpa [List.isEmpty_iff] using hne
      · exact (pyContains_iff_substr _ _).mpr hinf
    simp [_should_ignore, hany]
  · intro name dur extra
    simp [_should_ignore]

/-- Witness for C6: "Cross Dissolve" is ignored at a duration of 100
seconds, and disabling the heuristic keeps an element named "Dissolve" of
duration one microsecond. -/
theorem should_ignore_patterns_and_disable_witness :
    _should_ignore "Cross Dissolve" 100 true [] = true
    ∧ _should_ignore "Dissolve" (1/1000000) false [] = false := by
  constructor
  · refine (should_ignore_patterns_and_disable).1 "Cross Dissolve" 100 [] "Cross Dissolve"
      (by decide) (by decide) ?_
    exact (pyContains_iff_substr _ _).mp (by decide)
  · exact (should_ignore_patterns_and_disable).2 "Dissolve" (1/1000000) []

theorem should_ignore_eval (name : String) (dur : ℚ) (extra : List String)
    (hany : (DEFAULT_IGNORE_NAMES.map pyLower ++ extra.map pyLower).any
      (fun q => !q.data.isEmpty && pyContains (pyLower name).data q.data) = false) :
    _should_ignore name dur true extra = true ↔
      (dur ≤ 6/10 ∧ (pyLower name).data.dedup.length < 6) := by
  simp only [_should_ignore, Bool.not_true, Bool.false_eq_true, if_false, hany]
  by_cases hdur : dur ≤ 6/10
  · by_cases hdst : (pyLower name).data.dedup.length < 6
    · simp [hdur, hdst]
    · simp [hdur, hdst]
  · simp [hdur]

/-- Counterexample for C4 as stated: the element with duration 0.5s and
name "AAAAAA" is ignored (the claim says it is kept): six copies of 'A'
lowercase to one distinct character, fewer than 6. -/
theorem should_ignore_AAAAAA_counterexample :
    _should_ignore "AAAAAA" (1/2) true [] = true := by
  exact (should_ignore_eval "AAAAAA" (1/2) [] (by decide)).mpr
    ⟨by norm_num, by decide⟩

/-- C4 (amended): under the short-duration heuristic (heuristic enabled,
no name-pattern match), an element is ignored if and only if its duration
is at most 0.6 seconds and its lowercased name has fewer than 6 distinct
characters. -/
theorem short_duration_heuristic_iff (name : String) (dur : ℚ) (extra : List String)
    (hany : (DEFAULT_IGNORE_NAMES.map pyLower ++ extra.map pyLower).any
      (fun q => !q.data.isEmpty && pyContains (pyLower name).data q.data) = false) :
    _should_ignore name dur true extra = true ↔
      (dur ≤ 6/10 ∧ (pyLower name).data.dedup.length < 6) :=
  should_ignore_eval name dur extra hany

/-- Witness for C4 (amended): at duration 0.5s, a name with 6 distinct
characters ("ABCDEF") is kept while "AAAAA" (1 distinct character) is
ignored. -/
theorem short_duration_heuristic_iff_witness :
    _should_ignore "ABCDEF" (1/2) true [] = false
    ∧ _should_ignore "AAAAA" (1/2) true [] = true := by
  constructor
  · rcases Bool.eq_false_or_eq_true (_should_ignore "ABCDEF" (1/2) true []) with h1 | h0
    · exact absurd ((short_duration_heuristic_iff "ABCDEF" (1/2) [] (by decide)).mp h1).2
        (by decide)
    · exact h0
  · exact (short_duration_heuristic_iff "AAAAA" (1/2) [] (by decide)).mpr
      ⟨by norm_num, by decide⟩

theorem dropWhile_dropWhile_self {α : Type} (p : α → Bool) :
    ∀ l : List α, (l.dropWhile p).dropWhile p = l.dropWhile p
  | [] => rfl
  | a :: t => by
      by_cases h : p a
      · simp [List.dropWhile_cons, h, dropWhile_dropWhile_self p t]
      · simp [List.dropWhile_cons, h]

theorem rdropWhile_rdropWhile_self {α : Type} (p : α → Bool) (l : List α) :
    (l.rdropWhile p).rdropWhile p = l.rdropWhile p := by
  simp [List.rdropWhile, dropWhile_dropWhile_self]

theorem dropWhile_of_rdropWhile_fixed {α : Type} (p : α → Bool) (l : List α)
    (h : l.dropWhile p = l) : (l.rdropWhile p).dropWhile p = l.rdropWhile p := by
  rcases hr : l.rdropWhile p with - | ⟨c, t⟩
  · rfl
  · obtain ⟨u, hu⟩ := (List.rdropWhile_prefix p l)
    rw [hr] at hu
    have hc : p c = false := by
      by_contra hcc
      have hcc' : p c = true := by
        cases hpc : p c
        · exact absurd hpc hcc
        · rfl
      rw [← hu, List.cons_append, List.dropWhile_cons, if_pos hcc'] at h
      have hsub := (List.dropWhile_sublist (l := t ++ u) (p := p)).length_le
      have hlen : ((t ++ u).dropWhile p).length = (c :: (t ++ u)).length := by rw [h]
      simp [List.length_append] at hlen hsub
      omega
    rw [List.dropWhile_cons, if_neg (by simp [hc])]

theorem pyStrip_idem (s : String) : pyStrip (pyStrip s) = pyStrip s := by
  show (⟨((((s.data.dropWhile isPySpace).rdropWhile isPySpace).dropWhile
      isPySpace).rdropWhile isPySpace)⟩ : String) = ⟨_⟩
  rw [dropWhile_of_rdropWhile_fixed isPySpace _ (dropWhile_dropWhile_self isPySpace s.data),
    rdropWhile_rdropWhile_self]

theorem parseManualLoop_skip (blocks : List String) :
    ∀ pre rest : List String, (∀ l ∈ pre, startsWithGt l = false) →
      parseManualLoop (pre ++ rest) blocks [] = parseManualLoop rest blocks []
  | [], rest, _ => rfl
  | l :: pre, rest, h => by
      have hl : startsWithGt l = false := h l (List.mem_cons_self l pre)
      rw [List.cons_append]
      show parseManualLoop (l :: (pre ++ rest)) blocks [] = _
      rw [show parseManualLoop (l :: (pre ++ rest)) blocks [] =
          parseManualLoop (pre ++ rest) blocks [] by
        simp [parseManualLoop, hl]]
      exact parseManualLoop_skip blocks pre rest (fun x hx => h x (List.mem_cons_of_mem l hx))

theorem parseManualLoop_trimmed :
    ∀ (lines blocks cur : List String), (∀ b ∈ blocks, pyStrip b = b) →
      ∀ b ∈ parseManualLoop lines blocks cur, pyStrip b = b
  | [], blocks, cur, hb => by
      simp only [parseManualLoop]
      split
      · exact hb
      · intro b hbmem
        rcases List.mem_append.mp hbmem with h | h
        · exact hb b h
        · rw [List.mem_singleton.mp h]
          exact pyStrip_idem _
  | line :: rest, blocks, cur, hb => by
      simp only [parseManualLoop]
      split
      · refine parseManualLoop_trimmed rest _ _ ?_
        split
        · exact hb
        · intro b hbmem
          rcases List.mem_append.mp hbmem with h | h
          · exact hb b h
          · rw [List.mem_singleton.mp h]
            exact pyStrip_idem _
      · split
        · exact parseManualLoop_trimmed rest blocks cur hb
        · exact parseManualLoop_trimmed rest blocks (cur ++ [line]) hb

/-- C7: `parse_manual` silently discards lines preceding the first `'>'`
delimiter line; every emitted block is whole-block trimmed and nonempty
(so blocks that trim to empty are dropped); embedded newlines inside a
block are preserved; in particular the input
`"stray\n>First\nline2\n>Second"` yields exactly
`["First\nline2", "Second"]` and the input `">   \n"` yields no blocks. -/
theorem parse_manual_block_structure :
    (∀ pre rest : List String, (∀ l ∈ pre, startsWithGt l = false) →
        parseManualLines (pre ++ rest) = parseManualLines rest)
    ∧ (∀ lines : List String, ∀ b ∈ parseManualLines lines, pyStrip b = b ∧ b ≠ "")
    ∧ parseManualLines ["stray", ">First", "line2", ">Second"] =
        ["First\nline2", "Second"]
    ∧ parseManualLines [">   "] = [] := by
  refine ⟨?_, ?_, by decide, by decide⟩
  · intro pre rest h
    unfold parseManualLines
    rw [parseManualLoop_skip [] pre rest h]
  · intro lines b hb
    have hmem := List.mem_filter.mp hb
    exact ⟨parseManualLoop_trimmed lines [] [] (by simp) b hmem.1,
      by simpa using hmem.2⟩

/-- Witness for C7: a stray line before the first delimiter does not change
the parse. -/
theorem parse_manual_block_structure_witness :
    (∀ l ∈ ["stray"], startsWithGt l = false)
    ∧ parseManualLines (["stray"] ++ [">a"]) = parseManualLines [">a"] := by
  refine ⟨by decide, ?_⟩
  exact parse_manual_block_structure.1 ["stray"] [">a"] (by decide)

theorem mixedStep_not_needy (blocks : List String) (mi um : ℕ) (it : MixedItem)
    (h : needsManual it = false) :
    mixedStep blocks mi um it = (pyStrip (it.api_text.getD ""), mi, um) := by
  have h' : it.kind = Kind.text_plus ∧ pyTruthy it.api_text = true := by
    simpa [needsManual] using h
  unfold mixedStep
  rw [if_pos h']

theorem mixedStep_needy (blocks : List String) (mi um : ℕ) (it : MixedItem)
    (h : needsManual it = true) :
    mixedStep blocks mi um it =
      if hlt : mi < blocks.length then
        (pyStrip (blocks.get ⟨mi, hlt⟩), mi + 1, um + 1)
      else ("", mi, um) := by
  have hneg : ¬(it.kind = Kind.text_plus ∧ pyTruthy it.api_text = true) := by
    rintro ⟨h1, h2⟩
    simp [needsManual, h1, h2] at h
  unfold mixedStep
  rw [if_neg hneg]
  by_cases h2 : it.kind = Kind.text_plus ∧ pyTruthy it.api_text = false
  · rw [if_pos h2]
  · rw [if_neg h2]

theorem needyCount_cons_false (it : MixedItem) (rest : List MixedItem)
    (h : needsManual it = false) : needyCount (it :: rest) = needyCount rest := by
  simp [needyCount, List.filter_cons, h]

theorem needyCount_cons_true (it : MixedItem) (rest : List MixedItem)
    (h : needsManual it = true) : needyCount (it :: rest) = needyCount rest + 1 := by
  simp [needyCount, List.filter_cons, h]

theorem pyStrip_empty : pyStrip "" = "" := rfl

theorem mixedLoop_spec (blocks : List String) :
    ∀ (items : List MixedItem) (mi um : ℕ),
      (mixedLoop blocks items mi um).1.length = items.length
      ∧ (mixedLoop blocks items mi um).2.1
          = min (mi + needyCount items) (max mi blocks.length)
      ∧ (mixedLoop blocks items mi um).2.2
          = um + ((mixedLoop blocks items mi um).2.1 - mi)
      ∧ (∀ (i : ℕ) (hi : i < items.length),
          (mixedLoop blocks items mi um).1[i]? =
            some ((items.get ⟨i, hi⟩).start, (items.get ⟨i, hi⟩).«end»,
              if needsManual (items.get ⟨i, hi⟩) = true then
                pyStrip ((blocks[mi + needyCount (items.take i)]?).getD "")
              else pyStrip ((items.get ⟨i, hi⟩).api_text.getD "")))
  | [], mi, um => by
      refine ⟨rfl, by simp [mixedLoop, needyCount]; try omega, by simp [mixedLoop], ?_⟩
      intro i hi
      exact absurd hi (by simp)
  | it :: rest, mi, um => by
      cases hneed : needsManual it with
      | false =>
          have hstep := mixedStep_not_needy blocks mi um it hneed
          obtain ⟨ih1, ih2, ih3, ih4⟩ := mixedLoop_spec blocks rest mi um
          have hloop : mixedLoop blocks (it :: rest) mi um =
              ((it.start, it.«end», pyStrip (it.api_text.getD "")) ::
                (mixedLoop blocks rest mi um).1,
               (mixedLoop blocks rest mi um).2) := by
            simp only [mixedLoop, hstep]
          rw [hloop]
          refine ⟨by simp [ih1], ?_, ?_, ?_⟩
          · simpa [needyCount_cons_false it rest hneed] using ih2
          · simpa using ih3
          · intro i hi
            match i with
            | 0 =>
                simp [List.get, hneed]
            | j + 1 =>
                have hj : j < rest.length := by simpa using hi
                have := ih4 j hj
                simp only [List.getElem?_cons_succ, List.take_succ_cons,
                  needyCount_cons_false it _ hneed]
                simpa using this
      | true =>
          have hstep := mixedStep_needy blocks mi um it hneed
          by_cases hlt : mi < blocks.length
          · rw [dif_pos hlt] at hstep
            obtain ⟨ih1, ih2, ih3, ih4⟩ := mixedLoop_spec blocks rest (mi + 1) (um + 1)
            have hloop : mixedLoop blocks (it :: rest) mi um =
                ((it.start, it.«end», pyStrip (blocks.get ⟨mi, hlt⟩)) ::
                  (mixedLoop blocks rest (mi + 1) (um + 1)).1,
                 (mixedLoop blocks rest (mi + 1) (um + 1)).2) := by
              simp only [mixedLoop, hstep]
            rw [hloop]
            have hcnt := needyCount_cons_true it rest hneed
            refine ⟨by simp [ih1], ?_, ?_, ?_⟩
            · rw [hcnt]
              rw [ih2]
              omega
            · rw [ih3]
              rw [ih2]
              omega
            · intro i hi
              match i with
              | 0 =>
                  simp only [List.getElem?_cons_zero, List.get, hneed, if_pos,
                    List.take_zero, needyCount, List.filter_nil, List.length_nil,
                    Nat.add_zero]
                  rw [List.getElem?_eq_getElem hlt]
                  simp [List.get]
              | j + 1 =>
                  have hj : j < rest.length := by simpa using hi
                  have := ih4 j hj
                  simp only [List.getElem?_cons_succ, List.take_succ_cons,
                    needyCount_cons_true it _ hneed]
                  rw [show mi + (needyCount (rest.take j) + 1) =
                    mi + 1 + needyCount (rest.take j) by omega]
                  simpa using this
          · rw [dif_neg hlt] at hstep
            obtain ⟨ih1, ih2, ih3, ih4⟩ := mixedLoop_spec blocks rest mi um
            have hloop : mixedLoop blocks (it :: rest) mi um =
                ((it.start, it.«end», "") :: (mixedLoop blocks rest mi um).1,
                 (mixedLoop blocks rest mi um).2) := by
              simp only [mixedLoop, hstep]
            rw [hloop]
            have hcnt := needyCount_cons_true it rest hneed
            refine ⟨by simp [ih1], ?_, ?_, ?_⟩
            · rw [hcnt, ih2]
              omega
            · rw [ih3]
            · intro i hi
              match i with
              | 0 =>
                  have hnone : blocks[mi + needyCount ((it :: rest).take 0)]? = none :=
                    List.getElem?_eq_none (by simp [needyCount]; try omega)
                  simp only [List.getElem?_cons_zero, List.get, hneed, if_pos, hnone]
                  simp [pyStrip_empty]
              | j + 1 =>
                  have hj : j < rest.length := by simpa using hi
                  have hrec := ih4 j hj
                  have hn1 : blocks[mi + needyCount (rest.take j)]? = none :=
                    List.getElem?_eq_none (by omega)
                  have hn2 : blocks[mi + needyCount ((it :: rest).take (j + 1))]? = none := by
                    refine List.getElem?_eq_none ?_
                    omega
                  rw [hn1] at hrec
                  simp only [List.getElem?_cons_succ, hn2]
                  simpa using hrec

/-- C2: in mixed mode a single manual-block cursor runs across the whole
time-ordered pass: the output has exactly one entry per kept element; the
final cursor equals `min(#items that consume, len(blocks))`; an item that
supplies its own text (StyledText with truthy retrieved text) emits that
text stripped and does not move the cursor, while every other item consumes
the next unconsumed manual block — the one at the position counting the
consuming items before it — when one remains, and emits empty text
otherwise. -/
theorem write_srt_mixed_cursor (blocks : List String) (items : List MixedItem) :
    (mixedPass blocks items).entries.length = items.length
    ∧ (mixedPass blocks items).manual_idx = min (needyCount items) blocks.length
    ∧ (∀ (i : ℕ) (hi : i < items.length),
        (mixedPass blocks items).entries[i]? =
          some ((items.get ⟨i, hi⟩).start, (items.get ⟨i, hi⟩).«end»,
            if needsManual (items.get ⟨i, hi⟩) = true then
              pyStrip ((blocks[needyCount (items.take i)]?).getD "")
            else pyStrip ((items.get ⟨i, hi⟩).api_text.getD ""))) := by
  obtain ⟨h1, h2, h3, h4⟩ := mixedLoop_spec blocks items 0 0
  refine ⟨h1, ?_, ?_⟩
  · show (mixedLoop blocks items 0 0).2.1 = _
    rw [h2]
    omega
  · intro i hi
    have := h4 i hi
    show (mixedLoop blocks items 0 0).1[i]? = _
    simpa using this

/-- Witness for C2: over `[Styled(has text), Plain, Styled(no text)]` with
three manual blocks available, exactly one entry per element is emitted and
exactly 2 manual blocks are consumed. -/
theorem write_srt_mixed_cursor_witness :
    (mixedPass ["a", "b", "c"] demoMixedItems).entries.length = 3
    ∧ (mixedPass ["a", "b", "c"] demoMixedItems).manual_idx = 2 := by
  obtain ⟨h1, h2, -⟩ := write_srt_mixed_cursor ["a", "b", "c"] demoMixedItems
  exact ⟨h1.trans (by decide), h2.trans (by decide)⟩

/-- C10: a kept StyledText element whose retrieved text is nonempty but
whitespace-only supplies its own text: it does not consume a manual block
(it is not counted by the cursor), yet its emitted entry text is empty
after stripping, so the empty-entry count is positive and the empty-entry
warning is reported with that count. -/
theorem mixed_whitespace_styled_text (blocks : List String) (items : List MixedItem)
    (i : ℕ) (hi : i < items.length) (s : String)
    (hk : (items.get ⟨i, hi⟩).kind = Kind.text_plus)
    (ha : (items.get ⟨i, hi⟩).api_text = some s)
    (hs : s ≠ "") (hw : pyStrip s = "") :
    needsManual (items.get ⟨i, hi⟩) = false
    ∧ (mixedPass blocks items).entries[i]? =
        some ((items.get ⟨i, hi⟩).start, (items.get ⟨i, hi⟩).«end», "")
    ∧ (mixedPass blocks items).manual_idx = min (needyCount items) blocks.length
    ∧ 0 < ((mixedPass blocks items).entries.filter (fun e => e.2.2 = "")).length
    ∧ ("[warn] empty subtitle entries: " ++
        toString ((mixedPass blocks items).entries.filter (fun e => e.2.2 = "")).length)
        ∈ (mixedPass blocks items).warnings := by
  have hnm : needsManual (items.get ⟨i, hi⟩) = false := by
    unfold needsManual
    rw [hk, ha]
    simp [pyTruthy, hs]
  obtain ⟨h1, h2, h3, h4⟩ := mixedLoop_spec blocks items 0 0
  have hent : (mixedPass blocks items).entries[i]? =
      some ((items.get ⟨i, hi⟩).start, (items.get ⟨i, hi⟩).«end», "") := by
    have hx := h4 i hi
    rw [hnm] at hx
    show (mixedLoop blocks items 0 0).1[i]? = _
    rw [hx]
    have ha' : items[i].api_text = some s := ha
    simp [ha', hw]
  have hcur : (mixedPass blocks items).manual_idx = min (needyCount items) blocks.length := by
    show (mixedLoop blocks items 0 0).2.1 = _
    rw [h2]
    omega
  have hmem : ((items.get ⟨i, hi⟩).start, (items.get ⟨i, hi⟩).«end», "")
      ∈ (mixedPass blocks items).entries := by
    obtain ⟨hlt, heq⟩ := List.getElem?_eq_some_iff.mp hent
    exact heq ▸ List.getElem_mem hlt
  have hfil : ((items.get ⟨i, hi⟩).start, (items.get ⟨i, hi⟩).«end», "")
      ∈ (mixedPass blocks items).entries.filter (fun e => e.2.2 = "") :=
    List.mem_filter.mpr ⟨hmem, by simp⟩
  have hpos : 0 < ((mixedPass blocks items).entries.filter (fun e => e.2.2 = "")).length :=
    List.length_pos_of_mem hfil
  refine ⟨hnm, hent, hcur, hpos, ?_⟩
  show _ ∈ (if (mixedLoop blocks items 0 0).2.1 < blocks.length then
      ["[warn] unused manual blocks: " ++
        toString (blocks.length - (mixedLoop blocks items 0 0).2.1)]
     else []) ++
    (if 0 < ((mixedLoop blocks items 0 0).1.filter (fun e => e.2.2 = "")).length then
      ["[warn] empty subtitle entries: " ++
        toString ((mixedLoop blocks items 0 0).1.filter (fun e => e.2.2 = "")).length]
     else [])
  refine List.mem_append_right _ ?_
  have hpos' : 0 < ((mixedLoop blocks items 0 0).1.filter (fun e => e.2.2 = "")).length := hpos
  rw [if_pos hpos']
  exact List.mem_singleton.mpr rfl

/-- Witness for C10: a StyledText item with text `" "` consumes no manual
block (cursor stays 0 with a block available) and the empty-entry warning
is reported. -/
theorem mixed_whitespace_styled_text_witness :
    needsManual (demoWsItems.get ⟨0, by decide⟩) = false
    ∧ (mixedPass ["x"] demoWsItems).manual_idx = 0
    ∧ ("[warn] empty subtitle entries: " ++ toString
        ((mixedPass ["x"] demoWsItems).entries.filter (fun e => e.2.2 = "")).length)
      ∈ (mixedPass ["x"] demoWsItems).warnings := by
  obtain ⟨hnm, hent, hcur, hpos, hwarn⟩ :=
    mixed_whitespace_styled_text ["x"] demoWsItems 0 (by decide) " "
      rfl rfl (by decide) (by decide)
  exact ⟨hnm, hcur.trans (by decide), hwarn⟩

theorem roundHalfEven_natCast (u : ℕ) : roundHalfEven (u : ℚ) = (u : ℤ) := by
  simp only [roundHalfEven]
  rw [Int.floor_natCast]
  rw [if_pos (by push_cast; norm_num)]

theorem floor_natCast_div_natCast (u d : ℕ) :
    ⌊(u : ℚ) / (d : ℚ)⌋ = ((u / d : ℕ) : ℤ) := by
  rw [show ((u : ℚ)) = (((u : ℤ)) : ℚ) by push_cast; ring]
  rw [Rat.floor_intCast_div_natCast]
  exact Int.ofNat_tdiv u d

theorem fmtTotalMs_microseconds (u : ℕ) :
    fmtTotalMs ((u : ℚ) / 1000000) = ((u / 1000 : ℕ) : ℤ) := by
  unfold fmtTotalMs
  rw [show ((u : ℚ) / 1000000) * 1000000 = (u : ℚ) by field_simp]
  rw [roundHalfEven_natCast]
  rw [show (((u : ℤ) : ℚ)) / 1000000 * 1000 = (u : ℚ) / ((1000 : ℕ) : ℚ) by
    push_cast; ring]
  unfold pyInt
  rw [if_pos (by positivity)]
  exact floor_natCast_div_natCast u 1000

theorem padInt_natCast (w m : ℕ) : padInt w ((m : ℕ) : ℤ) = padZero w m := by
  unfold padInt
  rw [if_neg (by simp)]
  simp

theorem fmt_time_natForm (sec : ℚ) (n : ℕ) (h : fmtTotalMs sec = (n : ℤ)) :
    _fmt_time sec = fmtNatString n := by
  have e1 : ((n : ℤ)).fdiv 3600000 = ((n / 3600000 : ℕ) : ℤ) := by
    rw [Int.ofNat_fdiv]
    norm_num
  have e2 : (((n : ℤ)).fdiv 60000).fmod 60 = ((n / 60000 % 60 : ℕ) : ℤ) := by
    rw [Int.ofNat_fmod, Int.ofNat_fdiv]
    norm_num
  have e3 : (((n : ℤ)).fdiv 1000).fmod 60 = ((n / 1000 % 60 : ℕ) : ℤ) := by
    rw [Int.ofNat_fmod, Int.ofNat_fdiv]
    norm_num
  have e4 : ((n : ℤ)).fmod 1000 = ((n % 1000 : ℕ) : ℤ) := by
    rw [Int.ofNat_fmod]
    norm_num
  simp only [_fmt_time, fmtNatString, h]
  rw [e1, e2, e3, e4, padInt_natCast, padInt_natCast, padInt_natCast, padInt_natCast]

theorem fmt_time_spec_natForm (sec : ℚ) (n : ℕ) (h : ⌊sec * 1000⌋ = (n : ℤ)) :
    fmt_time_spec sec = fmtNatString n := by
  simp only [fmt_time_spec, fmtNatString, h, Int.toNat_natCast]
  rw [show n % 3600000 / 60000 = n / 60000 % 60 by omega]
  rw [show n % 3600000 % 60000 / 1000 = n / 1000 % 60 by omega]
  rw [show n % 3600000 % 60000 % 1000 = n % 1000 by omega]

/-- Counterexample for C3 as stated: at 0.0019999996 seconds the emitted
timecode is not the decomposition of `floor(seconds * 1000)`: the
microsecond rounding of `timedelta` lifts 1999.9996 µs to 2000 µs, so the
code emits 2 ms where the floor decomposition has 1 ms. -/
theorem fmt_time_not_floor_counterexample :
    _fmt_time (19999996 / 10000000000 : ℚ) ≠
      fmt_time_spec (19999996 / 10000000000 : ℚ) := by
  have hrhe : roundHalfEven ((19999996 / 10000000000 : ℚ) * 1000000) = 2000 := by
    rw [show (19999996 / 10000000000 : ℚ) * 1000000 = 19999996 / 10000 by norm_num]
    simp only [roundHalfEven]
    rw [show ⌊(19999996 / 10000 : ℚ)⌋ = 1999 by norm_num]
    rw [if_neg (by norm_num), if_pos (by norm_num)]
    norm_num
  have htot : fmtTotalMs (19999996 / 10000000000 : ℚ) = ((2 : ℕ) : ℤ) := by
    unfold fmtTotalMs
    rw [hrhe]
    unfold pyInt
    rw [if_pos (by norm_num)]
    rw [show ((2000 : ℤ) : ℚ) / 1000000 * 1000 = (((2 : ℕ) : ℚ)) by push_cast; norm_num]
    exact Int.floor_natCast 2
  have hspec : ⌊(19999996 / 10000000000 : ℚ) * 1000⌋ = ((1 : ℕ) : ℤ) := by
    rw [show (19999996 / 10000000000 : ℚ) * 1000 = 19999996 / 10000000 by norm_num]
    norm_num
  rw [fmt_time_natForm _ _ htot, fmt_time_spec_natForm _ _ hspec]
  decide

/-- C3 (amended): for every nonnegative seconds value that is a whole
number of microseconds — every value `timedelta` represents exactly, which
includes every value with at most 6 fractional decimal digits — the emitted
timecode equals the decomposition of `floor(seconds * 1000)` into
hours/minutes/seconds/milliseconds by integer division and modulo,
zero-padded to 2/2/2/3 digits (so within that grid the formatter truncates
to the millisecond, never rounds); in particular
`format(61.2345) = "00:01:01,234"`, not `",235"`. -/
theorem fmt_time_truncates_microseconds :
    (∀ u : ℕ, _fmt_time ((u : ℚ) / 1000000) = fmt_time_spec ((u : ℚ) / 1000000))
    ∧ _fmt_time (612345 / 10000 : ℚ) = "00:01:01,234" := by
  have main : ∀ u : ℕ,
      _fmt_time ((u : ℚ) / 1000000) = fmt_time_spec ((u : ℚ) / 1000000) := by
    intro u
    have h2 : ⌊((u : ℚ) / 1000000) * 1000⌋ = ((u / 1000 : ℕ) : ℤ) := by
      rw [show ((u : ℚ) / 1000000) * 1000 = (u : ℚ) / ((1000 : ℕ) : ℚ) by push_cast; ring]
      exact floor_natCast_div_natCast u 1000
    rw [fmt_time_natForm _ _ (fmtTotalMs_microseconds u), fmt_time_spec_natForm _ _ h2]
  refine ⟨main, ?_⟩
  rw [show (612345 / 10000 : ℚ) = ((61234500 : ℕ) : ℚ) / 1000000 by norm_num]
  rw [main 61234500]
  have h2 : ⌊(((61234500 : ℕ) : ℚ) / 1000000) * 1000⌋ = ((61234 : ℕ) : ℤ) := by
    rw [show (((61234500 : ℕ) : ℚ) / 1000000) * 1000 =
      ((61234500 : ℕ) : ℚ) / ((1000 : ℕ) : ℚ) by push_cast; ring]
    rw [floor_natCast_div_natCast]
  rw [fmt_time_spec_natForm _ _ h2]
  decide

theorem le_roundHalfEven (x : ℚ) : ⌊x⌋ ≤ roundHalfEven x := by
  simp only [roundHalfEven]
  split
  · omega
  · split
    · omega
    · split <;> omega

theorem roundHalfEven_le (x : ℚ) : roundHalfEven x ≤ ⌊x⌋ + 1 := by
  simp only [roundHalfEven]
  split
  · omega
  · split
    · omega
    · split <;> omega

theorem roundHalfEven_mono {x y : ℚ} (h : x ≤ y) :
    roundHalfEven x ≤ roundHalfEven y := by
  rcases lt_or_le (⌊x⌋) (⌊y⌋) with hf | hf
  · calc roundHalfEven x ≤ ⌊x⌋ + 1 := roundHalfEven_le x
      _ ≤ ⌊y⌋ := by omega
      _ ≤ roundHalfEven y := le_roundHalfEven y
  · have hf' : ⌊x⌋ = ⌊y⌋ := le_antisymm (Int.floor_mono h) hf
    simp only [roundHalfEven, ← hf']
    split_ifs <;> first | omega | linarith

theorem roundHalfEven_nonneg {x : ℚ} (hx : 0 ≤ x) : 0 ≤ roundHalfEven x :=
  le_trans (Int.floor_nonneg.mpr hx) (le_roundHalfEven x)

theorem fmtTotalMs_nonneg {a : ℚ} (ha : 0 ≤ a) : 0 ≤ fmtTotalMs a := by
  unfold fmtTotalMs pyInt
  have h1 : (0 : ℤ) ≤ roundHalfEven (a * 1000000) :=
    roundHalfEven_nonneg (by positivity)
  have h2 : (0 : ℚ) ≤ (roundHalfEven (a * 1000000) : ℚ) / 1000000 * 1000 := by
    have hc : (0 : ℚ) ≤ ((roundHalfEven (a * 1000000) : ℤ) : ℚ) := by exact_mod_cast h1
    positivity
  rw [if_pos h2]
  exact Int.floor_nonneg.mpr h2

theorem fmtTotalMs_mono {a b : ℚ} (ha : 0 ≤ a) (hab : a ≤ b) :
    fmtTotalMs a ≤ fmtTotalMs b := by
  unfold fmtTotalMs pyInt
  have hra : (0 : ℤ) ≤ roundHalfEven (a * 1000000) :=
    roundHalfEven_nonneg (by positivity)
  have hr : roundHalfEven (a * 1000000) ≤ roundHalfEven (b * 1000000) :=
    roundHalfEven_mono (by linarith)
  have hqa : (0 : ℚ) ≤ (roundHalfEven (a * 1000000) : ℚ) / 1000000 * 1000 := by
    have hc : (0 : ℚ) ≤ ((roundHalfEven (a * 1000000) : ℤ) : ℚ) := by exact_mod_cast hra
    positivity
  have hqb : (0 : ℚ) ≤ (roundHalfEven (b * 1000000) : ℚ) / 1000000 * 1000 := by
    have h1 : (0 : ℤ) ≤ roundHalfEven (b * 1000000) := le_trans hra hr
    have hc : (0 : ℚ) ≤ ((roundHalfEven (b * 1000000) : ℤ) : ℚ) := by exact_mod_cast h1
    positivity
  rw [if_pos hqa, if_pos hqb]
  apply Int.floor_mono
  have hc : ((roundHalfEven (a * 1000000) : ℤ) : ℚ) ≤
      ((roundHalfEven (b * 1000000) : ℤ) : ℚ) := Int.cast_le.mpr hr
  linarith

theorem fmt_time_toNat (sec : ℚ) (h : 0 ≤ sec) :
    _fmt_time sec = fmtNatString (fmtTotalMs sec).toNat :=
  fmt_time_natForm sec _ (Int.toNat_of_nonneg (fmtTotalMs_nonneg h)).symm

theorem digitChar_lt_digitChar :
    ∀ b < 10, ∀ a < b, Nat.digitChar a < Nat.digitChar b := by decide

theorem padZero_two_data : ∀ n < 100, (padZero 2 n).data =
    [Nat.digitChar (n / 10), Nat.digitChar (n % 10)] := by decide

set_option maxRecDepth 10000 in
theorem padZero_three_data : ∀ n < 1000, (padZero 3 n).data =
    [Nat.digitChar (n / 100), Nat.digitChar (n / 10 % 10), Nat.digitChar (n % 10)] := by
  decide

theorem padZero_two_lt : ∀ b < 100, ∀ a < b,
    (padZero 2 a).data < (padZero 2 b).data := by decide

theorem listLt_append_right (l : List Char) {t1 t2 : List Char} (h : t1 < t2) :
    (l ++ t1) < (l ++ t2) := by
  induction l with
  | nil => exact h
  | cons c r ih => exact List.Lex.cons ih

theorem listLt_append_left {l1 l2 : List Char} (h : l1 < l2) :
    l1.length = l2.length → ∀ t1 t2 : List Char, (l1 ++ t1) < (l2 ++ t2) := by
  induction h with
  | nil => intro hlen; simp at hlen
  | @rel a l1 b l2 hab => intro _ t1 t2; exact List.Lex.rel hab
  | @cons a l1 l2 hlt ih =>
      intro hlen t1 t2
      exact List.Lex.cons (ih (by simpa using hlen) t1 t2)

theorem padZero_two_length {k : ℕ} (hk : k < 100) : (padZero 2 k).data.length = 2 := by
  rw [padZero_two_data k hk]
  rfl

theorem padZero_three_lt {x y : ℕ} (hy : y < 1000) (hxy : x < y) :
    (padZero 3 x).data < (padZero 3 y).data := by
  have hx : x < 1000 := lt_trans hxy hy
  rw [padZero_three_data x hx, padZero_three_data y hy]
  have h100 : x / 100 ≤ y / 100 := Nat.div_le_div_right (le_of_lt hxy)
  rcases eq_or_lt_of_le h100 with he | hlt
  · rw [he]
    apply List.Lex.cons
    have h10 : x / 10 % 10 ≤ y / 10 % 10 := by omega
    rcases eq_or_lt_of_le h10 with he2 | hlt2
    · rw [he2]
      apply List.Lex.cons
      exact List.Lex.rel (digitChar_lt_digitChar (y % 10) (by omega) (x % 10) (by omega))
    · exact List.Lex.rel (digitChar_lt_digitChar _ (by omega) _ hlt2)
  · exact List.Lex.rel (digitChar_lt_digitChar _ (by omega) _ hlt)

theorem fmtNatString_data (k : ℕ) :
    (fmtNatString k).data =
      (padZero 2 (k / 3600000)).data ++ ':' :: ((padZero 2 (k / 60000 % 60)).data ++
        ':' :: ((padZero 2 (k / 1000 % 60)).data ++ ',' :: (padZero 3 (k % 1000)).data)) := by
  simp only [fmtNatString, String.data_append, List.append_assoc]
  rfl

theorem fmtNatString_lt {m n : ℕ} (hmn : m < n) (hn : n < 360000000) :
    fmtNatString m < fmtNatString n := by
  rw [String.lt_iff_toList_lt]
  show (fmtNatString m).data < (fmtNatString n).data
  rw [fmtNatString_data m, fmtNatString_data n]
  have hh : m / 3600000 ≤ n / 3600000 := Nat.div_le_div_right (le_of_lt hmn)
  have hn100 : n / 3600000 < 100 := by omega
  rcases eq_or_lt_of_le hh with he | hlt
  · rw [he]
    apply listLt_append_right
    apply List.Lex.cons
    have hm2 : m / 60000 % 60 ≤ n / 60000 % 60 := by omega
    rcases eq_or_lt_of_le hm2 with he2 | hlt2
    · rw [he2]
      apply listLt_append_right
      apply List.Lex.cons
      have hm3 : m / 1000 % 60 ≤ n / 1000 % 60 := by omega
      rcases eq_or_lt_of_le hm3 with he3 | hlt3
      · rw [he3]
        apply listLt_append_right
        apply List.Lex.cons
        exact padZero_three_lt (by omega) (by omega)
      · exact listLt_append_left (padZero_two_lt _ (by omega) _ hlt3)
          (by rw [padZero_two_length (by omega), padZero_two_length (by omega)]) _ _
    · exact listLt_append_left (padZero_two_lt _ (by omega) _ hlt2)
        (by rw [padZero_two_length (by omega), padZero_two_length (by omega)]) _ _
  · exact listLt_append_left (padZero_two_lt _ hn100 _ hlt)
      (by rw [padZero_two_length (by omega), padZero_two_length hn100]) _ _

theorem fmtNatString_mono {m n : ℕ} (hmn : m ≤ n) (hn : n < 360000000) :
    fmtNatString m ≤ fmtNatString n := by
  rcases eq_or_lt_of_le hmn with rfl | hlt
  · exact le_refl _
  · exact le_of_lt (fmtNatString_lt hlt hn)

/-- C9: the time formatter is monotone: for nonnegative seconds values of
the same magnitude — both below the 100-hour bound, so both hour fields
have the standard 2-digit width — `a < b` implies
`_fmt_time a ≤ _fmt_time b` in the lexicographic string order. -/
theorem fmt_time_monotone (a b : ℚ) (ha : 0 ≤ a) (hab : a < b)
    (hb : fmtTotalMs b < 360000000) :
    _fmt_time a ≤ _fmt_time b := by
  have hma : 0 ≤ fmtTotalMs a := fmtTotalMs_nonneg ha
  have hmono : fmtTotalMs a ≤ fmtTotalMs b := fmtTotalMs_mono ha (le_of_lt hab)
  rw [fmt_time_toNat a ha, fmt_time_toNat b (by linarith)]
  exact fmtNatString_mono (by omega) (by omega)

/-- Witness for C9: `0 < 2` (both under 100 hours) gives
`_fmt_time 0 ≤ _fmt_time 2`. -/
theorem fmt_time_monotone_witness :
    (0 : ℚ) ≤ 0 ∧ (0 : ℚ) < 2 ∧ fmtTotalMs 2 < 360000000
    ∧ _fmt_time 0 ≤ _fmt_time 2 := by
  have h2 : fmtTotalMs 2 = ((2000 : ℕ) : ℤ) := by
    rw [show (2 : ℚ) = ((2000000 : ℕ) : ℚ) / 1000000 by norm_num]
    rw [fmtTotalMs_microseconds]
  refine ⟨le_refl 0, by norm_num, by rw [h2]; norm_num, ?_⟩
  exact fmt_time_monotone 0 2 (le_refl 0) (by norm_num) (by rw [h2]; norm_num)
